import Mathlib

/-
Verification of the Sadun-Trading position ledger, risk gate, cost model,
real-time exit monitor and compounding manager.

Python floats are modelled as rationals (ℚ): arithmetic is exact, and the
NaN/infinity guards of the validators are vacuous in this model (every ℚ is
finite).  Dicts keyed by "symbol_strategy" strings are modelled as
association lists.  Exceptions are modelled with Except; the thread locks of
the source are irrelevant for sequential behaviour, except in the
compounding manager, where a non-reentrant lock is re-acquired by the same
call chain: there the lock is modelled explicitly as a boolean, and a
blocked acquisition makes the operation return none (the call never
returns).
-/

namespace Trading

/-- Tolerance used by the source for "fully closed": 0.00000001. -/
def closeTolerance : ℚ := 1 / 100000000

/-- validators.validate_price: positive, finite, and at most 1,000,000.
(NaN/infinity are not representable in ℚ.) -/
def validatePrice (price : ℚ) : Bool :=
  decide (0 < price) && decide (price ≤ 1000000)

/-- validators.validate_quantity: positive and finite. -/
def validateQuantity (quantity : ℚ) : Bool :=
  decide (0 < quantity)

/-- Python str.upper() (ASCII), computable by kernel reduction. -/
def pyToUpper (s : String) : String := String.mk (s.data.map Char.toUpper)

/-- validators.safe_divide: division with a fallback when the denominator is 0. -/
def safeDivide (numerator denominator default : ℚ) : ℚ :=
  if denominator = 0 then default else numerator / denominator

/-- validators.clamp_value: clamp a value between min and max, checking the
lower bound first. -/
def clampValue (value minVal maxVal : ℚ) : ℚ :=
  if value < minVal then minVal
  else if maxVal < value then maxVal
  else value

/-- validators.validate_stop_loss_take_profit (boolean part; the error
message strings are not modelled). -/
def validateStopLossTakeProfit (entryPrice stopLoss takeProfit : ℚ)
    (action : String) : Bool :=
  if !(validatePrice entryPrice && validatePrice stopLoss && validatePrice takeProfit) then
    false
  else if pyToUpper action = "BUY" then
    if entryPrice ≤ stopLoss then false
    else if takeProfit ≤ entryPrice then false
    else if takeProfit ≤ stopLoss then false
    else true
  else
    if stopLoss ≤ entryPrice then false
    else if entryPrice ≤ takeProfit then false
    else if stopLoss ≤ takeProfit then false
    else true

/-- One entry of Position.partial_closes (the timestamp is not modelled). -/
structure PartialCloseRecord where
  quantity : ℚ
  price : ℚ
  pnl : ℚ
  reason : String
  fees : ℚ
deriving Repr, DecidableEq

/-- position_manager.Position (timestamps are not modelled). -/
structure Position where
  symbol : String
  strategy : String
  action : String
  entryPrice : ℚ
  originalQuantity : ℚ
  quantity : ℚ
  stopLoss : ℚ
  takeProfit : ℚ
  exitPrice : Option ℚ
  pnl : ℚ
  pnlPct : ℚ
  status : String
  exitReason : Option String
  partialCloses : List PartialCloseRecord
  totalPartialPnl : ℚ
deriving Repr, DecidableEq

/-- Position.__init__: validates entry price and quantity (raising ValueError
on failure, modelled as Except.error). -/
def Position.make (symbol strategy action : String)
    (entryPrice quantity stopLoss takeProfit : ℚ) : Except String Position :=
  if !validatePrice entryPrice then .error "Invalid entry price"
  else if !validateQuantity quantity then .error "Invalid quantity"
  else .ok
    { symbol := symbol
      strategy := strategy
      action := pyToUpper action
      entryPrice := entryPrice
      originalQuantity := quantity
      quantity := quantity
      stopLoss := stopLoss
      takeProfit := takeProfit
      exitPrice := none
      pnl := 0
      pnlPct := 0
      status := "OPEN"
      exitReason := none
      partialCloses := []
      totalPartialPnl := 0 }

/-- Side-aware P&L of a closed slice: (exit - entry) × qty - fees for BUY,
(entry - exit) × qty - fees otherwise. -/
def sidePnl (action : String) (entryPrice exitPrice qty fees : ℚ) : ℚ :=
  if action = "BUY" then (exitPrice - entryPrice) * qty - fees
  else (entryPrice - exitPrice) * qty - fees

/-- Return value of Position.partial_close. -/
structure PartialCloseResult where
  closedQuantity : ℚ
  pnl : ℚ
  remainingQuantity : ℚ
  isFullClose : Bool
  totalPnl : ℚ
deriving Repr, DecidableEq

/-- Position.partial_close: clamp the requested quantity to the remaining
quantity, record the slice, decrement the remaining quantity, and finalize
the position when the remainder is within the 1e-8 tolerance. -/
def Position.partialClose (p : Position) (closeQuantity exitPrice : ℚ)
    (exitReason : String) (fees : ℚ) :
    Except String (PartialCloseResult × Position) :=
  if !validatePrice exitPrice || !validateQuantity closeQuantity then
    .error "Invalid price or quantity"
  else
    let cq := if p.quantity < closeQuantity then p.quantity else closeQuantity
    let partialPnl := sidePnl p.action p.entryPrice exitPrice cq fees
    let p1 : Position :=
      { p with
        partialCloses := p.partialCloses ++
          [{ quantity := cq, price := exitPrice, pnl := partialPnl,
             reason := exitReason, fees := fees }]
        totalPartialPnl := p.totalPartialPnl + partialPnl
        quantity := p.quantity - cq }
    if p1.quantity ≤ closeTolerance then
      let p2 : Position :=
        { p1 with
          exitPrice := some exitPrice
          exitReason := some exitReason
          status := "CLOSED"
          quantity := 0
          pnl := p1.totalPartialPnl
          pnlPct := safeDivide p1.totalPartialPnl
            (p1.originalQuantity * p1.entryPrice) 0 * 100 }
      .ok ({ closedQuantity := cq, pnl := partialPnl, remainingQuantity := 0,
             isFullClose := true, totalPnl := p1.totalPartialPnl }, p2)
    else
      .ok ({ closedQuantity := cq, pnl := partialPnl,
             remainingQuantity := p1.quantity, isFullClose := false,
             totalPnl := p1.totalPartialPnl }, p1)

/-- Position.close: full close.  With prior partial closes it delegates to
partial_close on the whole remaining quantity; otherwise it finalizes
directly, recording no partial-close entry. -/
def Position.close (p : Position) (exitPrice : ℚ) (exitReason : String)
    (fees : ℚ) : Except String Position :=
  if !validatePrice exitPrice then .error "Invalid exit price"
  else if 0 < p.partialCloses.length then
    (p.partialClose p.quantity exitPrice exitReason fees).map Prod.snd
  else
    let pnl := sidePnl p.action p.entryPrice exitPrice p.quantity fees
    let pnlPct :=
      if p.action = "BUY" then
        safeDivide (exitPrice - p.entryPrice) p.entryPrice 0 * 100
      else safeDivide (p.entryPrice - exitPrice) p.entryPrice 0 * 100
    .ok
      { p with
        exitPrice := some exitPrice
        exitReason := some exitReason
        status := "CLOSED"
        pnl := pnl
        pnlPct := pnlPct
        quantity := 0 }

/-- Key of the open-position map: f"{symbol}_{strategy}". -/
def posKey (symbol strategy : String) : String := symbol ++ "_" ++ strategy

/-- position_manager.PositionManager: the open-position dict, as an
association list. -/
structure PositionManager where
  positions : List (String × Position)
deriving Repr, DecidableEq

/-- The empty manager. -/
def PositionManager.empty : PositionManager := { positions := [] }

/-- Dict lookup on the open-position map. -/
def lookupKey : List (String × Position) → String → Option Position
  | [], _ => none
  | kv :: rest, k => if kv.1 = k then some kv.2 else lookupKey rest k

/-- Dict in-place update (the Python code mutates the stored Position). -/
def updateKey : List (String × Position) → String → Position →
    List (String × Position)
  | [], _, _ => []
  | kv :: rest, k, p =>
    if kv.1 = k then (k, p) :: updateKey rest k p else kv :: updateKey rest k p

/-- Dict deletion. -/
def removeKey : List (String × Position) → String → List (String × Position)
  | [], _ => []
  | kv :: rest, k =>
    if kv.1 = k then removeKey rest k else kv :: removeKey rest k

/-- PositionManager.open_position: reject an existing key, invalid stop
loss/take profit, or an invalid entry price/quantity (the ValueError raised
by the Position constructor is caught and turned into False before the map
is touched). -/
def PositionManager.openPosition (m : PositionManager)
    (symbol strategy action : String)
    (entryPrice quantity stopLoss takeProfit : ℚ) : Bool × PositionManager :=
  let key := posKey symbol strategy
  if (lookupKey m.positions key).isSome then (false, m)
  else if !validateStopLossTakeProfit entryPrice stopLoss takeProfit action then
    (false, m)
  else
    match Position.make symbol strategy action entryPrice quantity stopLoss
        takeProfit with
    | .error _ => (false, m)
    | .ok p => (true, { positions := (key, p) :: m.positions })

/-- PositionManager.partial_close_position: not-found and exceptions give
None with the map unchanged; a full close removes the key. -/
def PositionManager.partialClosePosition (m : PositionManager)
    (symbol strategy : String) (closeQuantity exitPrice : ℚ)
    (exitReason : String) (fees : ℚ) :
    Option (Position × PartialCloseResult) × PositionManager :=
  let key := posKey symbol strategy
  match lookupKey m.positions key with
  | none => (none, m)
  | some p =>
    match p.partialClose closeQuantity exitPrice exitReason fees with
    | .error _ => (none, m)
    | .ok (res, p2) =>
      if res.isFullClose then
        (some (p2, res), { positions := removeKey m.positions key })
      else
        (some (p2, res), { positions := updateKey m.positions key p2 })

/-- PositionManager.close_position: not-found and exceptions give None with
the map unchanged; success removes the key and returns the closed Position. -/
def PositionManager.closePosition (m : PositionManager)
    (symbol strategy : String) (exitPrice : ℚ) (exitReason : String)
    (fees : ℚ) : Option Position × PositionManager :=
  let key := posKey symbol strategy
  match lookupKey m.positions key with
  | none => (none, m)
  | some p =>
    match p.close exitPrice exitReason fees with
    | .error _ => (none, m)
    | .ok p2 => (some p2, { positions := removeKey m.positions key })

/-- Sum of the recorded partial-close quantities of a position. -/
def sumPartialQuantities (p : Position) : ℚ :=
  (p.partialCloses.map PartialCloseRecord.quantity).sum

/-- One ledger operation against the position manager. -/
inductive LedgerOp where
  | openPos (symbol strategy action : String)
      (entryPrice quantity stopLoss takeProfit : ℚ)
  | pclose (symbol strategy : String) (closeQuantity exitPrice : ℚ)
      (reason : String) (fees : ℚ)
  | fullclose (symbol strategy : String) (exitPrice : ℚ) (reason : String)
      (fees : ℚ)
deriving Repr, DecidableEq

/-- Whether an operation is an open. -/
def LedgerOp.isOpenOp : LedgerOp → Bool
  | .openPos .. => true
  | _ => false

/-- Result of running ledger operations: the final open-position map, the
Position objects handed back on full closes, and the closed_quantity values
returned by partial_close_position, tagged with their key. -/
structure StepOutcome where
  manager : PositionManager
  finished : List Position
  closedQty : List (String × ℚ)
deriving Repr, DecidableEq

/-- Apply one operation. -/
def ledgerStep (m : PositionManager) : LedgerOp → StepOutcome
  | .openPos s st a e q sl tp =>
    { manager := (m.openPosition s st a e q sl tp).2, finished := [],
      closedQty := [] }
  | .pclose s st cq ep r f =>
    let out := m.partialClosePosition s st cq ep r f
    { manager := out.2
      finished :=
        match out.1 with
        | some (p, res) => if res.isFullClose then [p] else []
        | none => []
      closedQty :=
        match out.1 with
        | some (_, res) => [(posKey s st, res.closedQuantity)]
        | none => [] }
  | .fullclose s st ep r f =>
    let out := m.closePosition s st ep r f
    { manager := out.2, finished := out.1.toList, closedQty := [] }

/-- Apply a list of operations in order, collecting outcomes. -/
def ledgerRun : PositionManager → List LedgerOp → StepOutcome
  | m, [] => { manager := m, finished := [], closedQty := [] }
  | m, op :: ops =>
    let s := ledgerStep m op
    let rest := ledgerRun s.manager ops
    { manager := rest.manager, finished := s.finished ++ rest.finished,
      closedQty := s.closedQty ++ rest.closedQty }

/-- Invariant of every position held in the open map. -/
def InvOpen (p : Position) : Prop :=
  p.status = "OPEN" ∧ 0 ≤ p.quantity ∧
    sumPartialQuantities p + p.quantity = p.originalQuantity

/-- Invariant of every position returned from a full close. -/
def InvClosed (p : Position) : Prop :=
  sumPartialQuantities p + p.quantity ≤ p.originalQuantity ∧
    (p.partialCloses ≠ [] →
      p.originalQuantity - closeTolerance ≤
        sumPartialQuantities p + p.quantity)

/-- Invariant of the whole open-position map. -/
def ManagerInv (m : PositionManager) : Prop :=
  ∀ kv ∈ m.positions, InvOpen kv.2

lemma lookupKey_mem {l : List (String × Position)} {k : String} {p : Position}
    (h : lookupKey l k = some p) : (k, p) ∈ l := by
  induction l with
  | nil => simp [lookupKey] at h
  | cons kv rest ih =>
    obtain ⟨a, b⟩ := kv
    rw [lookupKey] at h
    by_cases hak : a = k
    · simp only [hak, if_pos rfl] at h
      obtain rfl : b = p := by simpa using h
      subst hak
      exact List.mem_cons_self _ _
    · simp only [hak, if_false] at h
      exact List.mem_cons_of_mem _ (ih h)

lemma mem_updateKey {l : List (String × Position)} {k : String} {p : Position}
    {kv : String × Position} (h : kv ∈ updateKey l k p) :
    kv ∈ l ∨ kv = (k, p) := by
  induction l with
  | nil => simp [updateKey] at h
  | cons kv0 rest ih =>
    rw [updateKey] at h
    split at h
    · rcases List.mem_cons.mp h with h1 | h1
      · exact Or.inr h1
      · rcases ih h1 with h2 | h2
        · exact Or.inl (List.mem_cons_of_mem _ h2)
        · exact Or.inr h2
    · rcases List.mem_cons.mp h with h1 | h1
      · exact Or.inl (h1 ▸ List.mem_cons_self _ _)
      · rcases ih h1 with h2 | h2
        · exact Or.inl (List.mem_cons_of_mem _ h2)
        · exact Or.inr h2

lemma mem_removeKey {l : List (String × Position)} {k : String}
    {kv : String × Position} (h : kv ∈ removeKey l k) : kv ∈ l := by
  induction l with
  | nil => simp [removeKey] at h
  | cons kv0 rest ih =>
    rw [removeKey] at h
    split at h
    · exact List.mem_cons_of_mem _ (ih h)
    · rcases List.mem_cons.mp h with h1 | h1
      · exact h1 ▸ List.mem_cons_self _ _
      · exact List.mem_cons_of_mem _ (ih h1)

lemma lookupKey_updateKey_self {l : List (String × Position)} {k : String}
    {p q : Position} (h : lookupKey l k = some q) :
    lookupKey (updateKey l k p) k = some p := by
  induction l with
  | nil => simp [lookupKey] at h
  | cons kv rest ih =>
    rw [lookupKey] at h
    rw [updateKey]
    split at h
    · next heq => simp [heq, lookupKey]
    · next heq =>
      rw [if_neg heq, lookupKey, if_neg heq]
      exact ih h

lemma lookupKey_updateKey_ne {l : List (String × Position)} {k k2 : String}
    {p : Position} (h : k2 ≠ k) :
    lookupKey (updateKey l k p) k2 = lookupKey l k2 := by
  induction l with
  | nil => simp [lookupKey, updateKey]
  | cons kv rest ih =>
    rw [updateKey]
    split
    · next heq =>
      have h1 : ¬ (k = k2) := fun hk => h hk.symm
      have h2 : ¬ (kv.1 = k2) := by rw [heq]; exact h1
      rw [lookupKey, lookupKey, if_neg h1, if_neg h2]
      exact ih
    · rw [lookupKey, lookupKey]
      split
      · rfl
      · exact ih

lemma lookupKey_removeKey_self {l : List (String × Position)} {k : String} :
    lookupKey (removeKey l k) k = none := by
  induction l with
  | nil => simp [lookupKey, removeKey]
  | cons kv rest ih =>
    rw [removeKey]
    split
    · exact ih
    · next heq =>
      rw [lookupKey, if_neg heq]
      exact ih

lemma lookupKey_removeKey_ne {l : List (String × Position)} {k k2 : String}
    (h : k2 ≠ k) : lookupKey (removeKey l k) k2 = lookupKey l k2 := by
  induction l with
  | nil => simp [lookupKey, removeKey]
  | cons kv rest ih =>
    rw [removeKey]
    split
    · next heq =>
      have h2 : ¬ (kv.1 = k2) := by rw [heq]; exact fun hk => h hk.symm
      rw [ih]
      conv => rhs; rw [lookupKey, if_neg h2]
    · rw [lookupKey, lookupKey]
      split
      · rfl
      · exact ih

lemma closeTolerance_pos : (0 : ℚ) < closeTolerance := by
  rw [closeTolerance]; norm_num

lemma make_ok_spec {s st a : String} {e q sl tp : ℚ} {p : Position}
    (h : Position.make s st a e q sl tp = .ok p) :
    InvOpen p ∧ p.quantity = q ∧ p.originalQuantity = q ∧ 0 < q := by
  rw [Position.make] at h
  split at h
  · exact absurd h (by simp)
  · split at h
    · exact absurd h (by simp)
    · next h1 h2 =>
      have hq : 0 < q := by
        have := Bool.not_eq_true _ ▸ h2
        simpa [validateQuantity] using h2
      obtain rfl : _ = p := by simpa using h
      refine ⟨⟨rfl, le_of_lt hq, ?_⟩, rfl, rfl, hq⟩
      simp [sumPartialQuantities]

lemma partialClose_ok_spec {p : Position} {cq ep : ℚ} {r : String} {f : ℚ}
    {res : PartialCloseResult} {p2 : Position}
    (hok : p.partialClose cq ep r f = .ok (res, p2)) (hp : InvOpen p) :
    0 ≤ res.closedQuantity ∧ res.closedQuantity ≤ p.quantity ∧
      p2.originalQuantity = p.originalQuantity ∧
      (res.isFullClose = true →
        InvClosed p2 ∧ p2.quantity = 0 ∧ p2.status = "CLOSED") ∧
      (res.isFullClose = false →
        InvOpen p2 ∧ p2.quantity = p.quantity - res.closedQuantity) := by
  obtain ⟨hst, hq0, hsum⟩ := hp
  rw [Position.partialClose] at hok
  split at hok
  · exact absurd hok (by simp)
  · next hval =>
    have hquant : validateQuantity cq = true := by
      rcases Bool.eq_false_or_eq_true (validateQuantity cq) with h | h
      · exact h
      · exact absurd (by simp [h]) hval
    have hcq : 0 < cq := by simpa [validateQuantity] using hquant
    set cqv : ℚ := if p.quantity < cq then p.quantity else cq with hcqv
    have hcq0 : 0 ≤ cqv := by
      rw [hcqv]; split
      · exact hq0
      · exact le_of_lt hcq
    have hcqle : cqv ≤ p.quantity := by
      rw [hcqv]; split
      · exact le_refl _
      · next hlt => exact le_of_not_lt hlt
    simp only [] at hok
    split at hok
    · next htol =>
      obtain ⟨hres, hp2⟩ : _ ∧ _ := by simpa using hok
      subst hres hp2
      refine ⟨hcq0, hcqle, rfl, ?_, by simp⟩
      intro _
      refine ⟨⟨?_, ?_⟩, rfl, rfl⟩
      · simp only [sumPartialQuantities, List.map_append, List.sum_append,
          List.map, List.sum_cons, List.sum_nil]
        simp only [sumPartialQuantities] at hsum
        linarith
      · intro _
        simp only [sumPartialQuantities, List.map_append, List.sum_append,
          List.map, List.sum_cons, List.sum_nil]
        simp only [sumPartialQuantities] at hsum
        linarith
    · next htol =>
      obtain ⟨hres, hp2⟩ : _ ∧ _ := by simpa using hok
      subst hres hp2
      refine ⟨hcq0, hcqle, rfl, by simp, ?_⟩
      intro _
      have htol2 : closeTolerance < p.quantity - cqv := lt_of_not_le htol
      have htp := closeTolerance_pos
      refine ⟨⟨hst, ?_, ?_⟩, rfl⟩
      · show (0:ℚ) ≤ p.quantity - cqv
        linarith
      simp only [sumPartialQuantities, List.map_append, List.sum_append,
        List.map, List.sum_cons, List.sum_nil]
      simp only [sumPartialQuantities] at hsum
      linarith

lemma partialClose_self_full {p : Position} {ep : ℚ} {r : String} {f : ℚ}
    {res : PartialCloseResult} {p2 : Position}
    (hok : p.partialClose p.quantity ep r f = .ok (res, p2)) :
    res.isFullClose = true := by
  rw [Position.partialClose] at hok
  split at hok
  · exact absurd hok (by simp)
  · simp only [ite_self] at hok
    split at hok
    · obtain ⟨hres, _⟩ : _ ∧ _ := by simpa using hok
      rw [← hres]
    · next htol =>
      exact absurd (by rw [sub_self]; exact le_of_lt closeTolerance_pos) htol

lemma close_ok_spec {p : Position} {ep : ℚ} {r : String} {f : ℚ}
    {p2 : Position} (hok : p.close ep r f = .ok p2) (hp : InvOpen p) :
    InvClosed p2 ∧ p2.quantity = 0 ∧ p2.originalQuantity = p.originalQuantity := by
  rw [Position.close] at hok
  split at hok
  · exact absurd hok (by simp)
  · split at hok
    · next hlen =>
      rcases hpc : p.partialClose p.quantity ep r f with e | pr
      · rw [hpc] at hok
        exact absurd hok (by simp [Except.map])
      · obtain ⟨res, p3⟩ := pr
        rw [hpc] at hok
        obtain rfl : p3 = p2 := by simpa [Except.map] using hok
        have hspec := partialClose_ok_spec hpc hp
        have hfull := partialClose_self_full hpc
        obtain ⟨hc, hq2, _⟩ := hspec.2.2.2.1 hfull
        exact ⟨hc, hq2, hspec.2.2.1⟩
    · next hlen =>
      obtain ⟨hst, hq0, hsum⟩ := hp
      have hnil : p.partialCloses = [] := List.length_eq_zero.mp (by omega)
      obtain rfl : _ = p2 := by simpa using hok
      have hsum0 : sumPartialQuantities p = 0 := by
        simp [sumPartialQuantities, hnil]
      refine ⟨⟨?_, ?_⟩, rfl, rfl⟩
      · have h1 : (0:ℚ) ≤ p.originalQuantity := by linarith
        simpa [sumPartialQuantities, hnil] using h1
      · intro hne
        simp [hnil] at hne


lemma bool_eq_false {b : Bool} (h : ¬ b = true) : b = false := by
  cases b
  · rfl
  · exact absurd rfl h

lemma openPosition_cases (m : PositionManager) (s st a : String)
    (e q sl tp : ℚ) :
    (m.openPosition s st a e q sl tp).2 = m ∨
    ∃ p, Position.make s st a e q sl tp = .ok p ∧
      (m.openPosition s st a e q sl tp).2 =
        { positions := (posKey s st, p) :: m.positions } := by
  by_cases h1 : (lookupKey m.positions (posKey s st)).isSome
  · left; simp [PositionManager.openPosition, h1]
  · have h1f := bool_eq_false h1
    by_cases h2 : validateStopLossTakeProfit e sl tp a = true
    · rcases hmk : Position.make s st a e q sl tp with err | p
      · left; simp [PositionManager.openPosition, h1f, h2, hmk]
      · right
        exact ⟨p, rfl, by simp [PositionManager.openPosition, h1f, h2, hmk]⟩
    · left
      simp [PositionManager.openPosition, h1f, bool_eq_false h2]

lemma partialClosePosition_cases (m : PositionManager) (s st : String)
    (cq ep : ℚ) (r : String) (f : ℚ) :
    (m.partialClosePosition s st cq ep r f = (none, m)) ∨
    ∃ p res p2, lookupKey m.positions (posKey s st) = some p ∧
      p.partialClose cq ep r f = .ok (res, p2) ∧
      m.partialClosePosition s st cq ep r f = (some (p2, res),
        if res.isFullClose then
          { positions := removeKey m.positions (posKey s st) }
        else { positions := updateKey m.positions (posKey s st) p2 }) := by
  rcases hlu : lookupKey m.positions (posKey s st) with _ | p
  · left; simp [PositionManager.partialClosePosition, hlu]
  · rcases hpc : p.partialClose cq ep r f with err | pr
    · left; simp [PositionManager.partialClosePosition, hlu, hpc]
    · obtain ⟨res, p2⟩ := pr
      right
      refine ⟨p, res, p2, rfl, hpc, ?_⟩
      rcases Bool.eq_false_or_eq_true res.isFullClose with hfull | hfull
      · simp [PositionManager.partialClosePosition, hlu, hpc, hfull]
      · simp [PositionManager.partialClosePosition, hlu, hpc, hfull]

lemma closePosition_cases (m : PositionManager) (s st : String) (ep : ℚ)
    (r : String) (f : ℚ) :
    (m.closePosition s st ep r f = (none, m)) ∨
    ∃ p p2, lookupKey m.positions (posKey s st) = some p ∧
      p.close ep r f = .ok p2 ∧
      m.closePosition s st ep r f = (some p2,
        { positions := removeKey m.positions (posKey s st) }) := by
  rcases hlu : lookupKey m.positions (posKey s st) with _ | p
  · left; simp [PositionManager.closePosition, hlu]
  · rcases hcl : p.close ep r f with err | p2
    · left; simp [PositionManager.closePosition, hlu, hcl]
    · right
      exact ⟨p, p2, rfl, hcl, by simp [PositionManager.closePosition, hlu, hcl]⟩

lemma ledgerStep_inv (m : PositionManager) (op : LedgerOp)
    (hm : ManagerInv m) :
    ManagerInv (ledgerStep m op).manager ∧
      ∀ p ∈ (ledgerStep m op).finished, InvClosed p := by
  cases op with
  | openPos s st a e q sl tp =>
    refine ⟨?_, by simp [ledgerStep]⟩
    show ManagerInv (m.openPosition s st a e q sl tp).2
    rcases openPosition_cases m s st a e q sl tp with h | ⟨p, hmk, h⟩
    · rw [h]; exact hm
    · rw [h]
      intro kv hkv
      rcases List.mem_cons.mp hkv with h1 | h1
      · rw [h1]
        exact (make_ok_spec hmk).1
      · exact hm kv h1
  | pclose s st cq ep r f =>
    rcases partialClosePosition_cases m s st cq ep r f with h | ⟨p, res, p2, hlu, hpc, h⟩
    · constructor
      · show ManagerInv (m.partialClosePosition s st cq ep r f).2
        rw [h]; exact hm
      · intro p3 hp3
        simp [ledgerStep, h] at hp3
    · have hp : InvOpen p := hm _ (lookupKey_mem hlu)
      have hspec := partialClose_ok_spec hpc hp
      rcases Bool.eq_false_or_eq_true res.isFullClose with hfull | hfull
      · rw [hfull, if_pos rfl] at h
        constructor
        · show ManagerInv (m.partialClosePosition s st cq ep r f).2
          rw [h]
          intro kv hkv
          exact hm _ (mem_removeKey hkv)
        · intro p3 hp3
          have hmem : p3 ∈ [p2] := by
            simpa [ledgerStep, h, hfull] using hp3
          rw [List.mem_singleton.mp hmem]
          exact (hspec.2.2.2.1 hfull).1
      · rw [hfull] at h
        simp only [Bool.false_eq_true, if_false] at h
        constructor
        · show ManagerInv (m.partialClosePosition s st cq ep r f).2
          rw [h]
          intro kv hkv
          rcases mem_updateKey hkv with h1 | h1
          · exact hm _ h1
          · rw [h1]
            exact (hspec.2.2.2.2 hfull).1
        · intro p3 hp3
          simp [ledgerStep, h, hfull] at hp3
  | fullclose s st ep r f =>
    rcases closePosition_cases m s st ep r f with h | ⟨p, p2, hlu, hcl, h⟩
    · constructor
      · show ManagerInv (m.closePosition s st ep r f).2
        rw [h]; exact hm
      · intro p3 hp3
        simp [ledgerStep, h] at hp3
    · have hp : InvOpen p := hm _ (lookupKey_mem hlu)
      constructor
      · show ManagerInv (m.closePosition s st ep r f).2
        rw [h]
        intro kv hkv
        exact hm _ (mem_removeKey hkv)
      · intro p3 hp3
        have hmem : p3 ∈ [p2] := by
          simpa [ledgerStep, h] using hp3
        rw [List.mem_singleton.mp hmem]
        exact (close_ok_spec hcl hp).1

lemma ledgerRun_inv (ops : List LedgerOp) (m : PositionManager)
    (hm : ManagerInv m) :
    ManagerInv (ledgerRun m ops).manager ∧
      ∀ p ∈ (ledgerRun m ops).finished, InvClosed p := by
  induction ops generalizing m with
  | nil => exact ⟨hm, by simp [ledgerRun]⟩
  | cons op ops ih =>
    rw [ledgerRun]
    obtain ⟨h1, h2⟩ := ledgerStep_inv m op hm
    obtain ⟨h3, h4⟩ := ih (ledgerStep m op).manager h1
    refine ⟨h3, ?_⟩
    intro p hp
    rcases List.mem_append.mp hp with h | h
    · exact h2 p h
    · exact h4 p h

/-- Remaining quantity stored at a key (0 when the key is absent). -/
def remainingAt (m : PositionManager) (key : String) : ℚ :=
  match lookupKey m.positions key with
  | some p => p.quantity
  | none => 0

/-- Total of the closed_quantity values returned for one key. -/
def closedQuantitySum (key : String) (l : List (String × ℚ)) : ℚ :=
  ((l.filter fun kq => decide (kq.1 = key)).map Prod.snd).sum

lemma closedQuantitySum_append (key : String) (a b : List (String × ℚ)) :
    closedQuantitySum key (a ++ b) =
      closedQuantitySum key a + closedQuantitySum key b := by
  simp [closedQuantitySum]

lemma remainingAt_nonneg (m : PositionManager) (key : String)
    (hm : ManagerInv m) : 0 ≤ remainingAt m key := by
  rw [remainingAt]
  rcases hlu : lookupKey m.positions key with _ | p
  · exact le_refl 0
  · exact (hm _ (lookupKey_mem hlu)).2.1

lemma remainingAt_eq (m : PositionManager) (key : String) {p : Position}
    (h : lookupKey m.positions key = some p) :
    remainingAt m key = p.quantity := by
  rw [remainingAt, h]

lemma remainingAt_none (m : PositionManager) (key : String)
    (h : lookupKey m.positions key = none) : remainingAt m key = 0 := by
  rw [remainingAt, h]

lemma step_closedQuantitySum (m : PositionManager) (op : LedgerOp)
    (key : String) (hm : ManagerInv m) (hop : op.isOpenOp = false) :
    closedQuantitySum key (ledgerStep m op).closedQty +
      remainingAt (ledgerStep m op).manager key ≤ remainingAt m key := by
  cases op with
  | openPos s st a e q sl tp => simp [LedgerOp.isOpenOp] at hop
  | pclose s st cq ep r f =>
    rcases partialClosePosition_cases m s st cq ep r f with h |
      ⟨p, res, p2, hlu, hpc, h⟩
    · simp [ledgerStep, h, closedQuantitySum]
    · have hp : InvOpen p := hm _ (lookupKey_mem hlu)
      have hspec := partialClose_ok_spec hpc hp
      by_cases hk : posKey s st = key
      · have hrem : remainingAt m key = p.quantity := by
          apply remainingAt_eq
          rw [← hk]; exact hlu
        rcases Bool.eq_false_or_eq_true res.isFullClose with hfull | hfull
        · rw [hfull, if_pos rfl] at h
          have hsum : closedQuantitySum key
              (ledgerStep m (.pclose s st cq ep r f)).closedQty =
              res.closedQuantity := by
            simp [ledgerStep, h, closedQuantitySum, hk]
          have hrem2 : remainingAt
              (ledgerStep m (.pclose s st cq ep r f)).manager key = 0 := by
            show remainingAt (m.partialClosePosition s st cq ep r f).2 key = 0
            rw [h]
            exact remainingAt_none _ key
              (by rw [← hk]; exact lookupKey_removeKey_self)
          rw [hsum, hrem, hrem2]
          have := hspec.2.1
          linarith
        · rw [hfull] at h
          simp only [Bool.false_eq_true, if_false] at h
          have hsum : closedQuantitySum key
              (ledgerStep m (.pclose s st cq ep r f)).closedQty =
              res.closedQuantity := by
            simp [ledgerStep, h, closedQuantitySum, hk]
          have hrem2 : remainingAt
              (ledgerStep m (.pclose s st cq ep r f)).manager key =
              p2.quantity := by
            show remainingAt (m.partialClosePosition s st cq ep r f).2 key =
              p2.quantity
            rw [h]
            exact remainingAt_eq _ key
              (by rw [← hk]; exact lookupKey_updateKey_self hlu)
          rw [hsum, hrem, hrem2, (hspec.2.2.2.2 hfull).2]
          linarith
      · have hkk : ¬ key = posKey s st := fun hkk => hk hkk.symm
        have hsum : closedQuantitySum key
            (ledgerStep m (.pclose s st cq ep r f)).closedQty = 0 := by
          simp [ledgerStep, h, closedQuantitySum, hk]
        have hrem2 : remainingAt
            (ledgerStep m (.pclose s st cq ep r f)).manager key =
            remainingAt m key := by
          show remainingAt (m.partialClosePosition s st cq ep r f).2 key =
            remainingAt m key
          rw [h]
          rcases Bool.eq_false_or_eq_true res.isFullClose with hfull | hfull
          · rw [hfull, if_pos rfl, remainingAt, remainingAt]
            rw [lookupKey_removeKey_ne hkk]
          · rw [hfull]
            simp only [Bool.false_eq_true, if_false]
            rw [remainingAt, remainingAt, lookupKey_updateKey_ne hkk]
        rw [hsum, hrem2]
        linarith
  | fullclose s st ep r f =>
    have hsum : closedQuantitySum key
        (ledgerStep m (.fullclose s st ep r f)).closedQty = 0 := by
      simp [ledgerStep, closedQuantitySum]
    rcases closePosition_cases m s st ep r f with h | ⟨p, p2, hlu, hcl, h⟩
    · have hrem2 : remainingAt
          (ledgerStep m (.fullclose s st ep r f)).manager key =
          remainingAt m key := by
        show remainingAt (m.closePosition s st ep r f).2 key = remainingAt m key
        rw [h]
      rw [hsum, hrem2]
      linarith
    · have hp : InvOpen p := hm _ (lookupKey_mem hlu)
      by_cases hk : posKey s st = key
      · have hrem : remainingAt m key = p.quantity := by
          apply remainingAt_eq
          rw [← hk]; exact hlu
        have hrem2 : remainingAt
            (ledgerStep m (.fullclose s st ep r f)).manager key = 0 := by
          show remainingAt (m.closePosition s st ep r f).2 key = 0
          rw [h]
          exact remainingAt_none _ key
            (by rw [← hk]; exact lookupKey_removeKey_self)
        rw [hsum, hrem, hrem2]
        have := hp.2.1
        linarith
      · have hkk : ¬ key = posKey s st := fun hkk => hk hkk.symm
        have hrem2 : remainingAt
            (ledgerStep m (.fullclose s st ep r f)).manager key =
            remainingAt m key := by
          show remainingAt (m.closePosition s st ep r f).2 key = remainingAt m key
          rw [h, remainingAt, remainingAt, lookupKey_removeKey_ne hkk]
        rw [hsum, hrem2]
        linarith

lemma run_closedQuantitySum (ops : List LedgerOp) (m : PositionManager)
    (key : String) (hm : ManagerInv m)
    (hops : ∀ op ∈ ops, op.isOpenOp = false) :
    closedQuantitySum key (ledgerRun m ops).closedQty ≤ remainingAt m key := by
  induction ops generalizing m with
  | nil =>
    rw [ledgerRun]
    show closedQuantitySum key [] ≤ remainingAt m key
    have := remainingAt_nonneg m key hm
    simp [closedQuantitySum]
    linarith
  | cons op ops ih =>
    rw [ledgerRun]
    show closedQuantitySum key
      ((ledgerStep m op).closedQty ++ (ledgerRun (ledgerStep m op).manager ops).closedQty) ≤
        remainingAt m key
    rw [closedQuantitySum_append]
    have hm2 := (ledgerStep_inv m op hm).1
    have h1 := ih (ledgerStep m op).manager hm2
      (fun o ho => hops o (List.mem_cons_of_mem _ ho))
    have h2 := step_closedQuantitySum m op key hm
      (hops op (List.mem_cons_self _ _))
    linarith

/-- Concrete run used to refute the literal form of the C1 claim: a
position of quantity 1 opened and then fully closed by close() with no
prior partial closes. -/
def c1CexOps : List LedgerOp :=
  [.openPos "BTCUSDT" "scalp" "BUY" 100 1 99 102,
   .fullclose "BTCUSDT" "scalp" 101 "take_profit" 0]

/-- The closed Position produced by c1CexOps. -/
def c1CexPos : Position :=
  { symbol := "BTCUSDT", strategy := "scalp", action := "BUY",
    entryPrice := 100, originalQuantity := 1, quantity := 0,
    stopLoss := 99, takeProfit := 102, exitPrice := some 101, pnl := 1,
    pnlPct := 1, status := "CLOSED", exitReason := some "take_profit",
    partialCloses := [], totalPartialPnl := 0 }

/-- C1 counterexample: after open(qty = 1) followed by a plain close(), the
closed Position records no partial-close entry, so the sum of recorded
partial-close quantities plus the remaining quantity is 0, off from the
original quantity 1 by far more than the 1e-8 tolerance. -/
theorem trading_C1_counterexample :
    (ledgerRun PositionManager.empty c1CexOps).finished = [c1CexPos] ∧
    sumPartialQuantities c1CexPos + c1CexPos.quantity = 0 ∧
    c1CexPos.originalQuantity = 1 ∧
    ¬ |sumPartialQuantities c1CexPos + c1CexPos.quantity -
        c1CexPos.originalQuantity| ≤ closeTolerance := by
  refine ⟨?_, by norm_num [sumPartialQuantities, c1CexPos],
    by norm_num [c1CexPos],
    by norm_num [sumPartialQuantities, c1CexPos, closeTolerance]⟩
  norm_num [c1CexOps, ledgerRun, ledgerStep, PositionManager.openPosition,
    PositionManager.closePosition, Position.make, Position.close, sidePnl,
    validateStopLossTakeProfit, validatePrice, validateQuantity, safeDivide,
    lookupKey, removeKey, PositionManager.empty, c1CexPos,
    show pyToUpper "BUY" = "BUY" from by decide]

/-- C1 (amended): after any sequence of open, partial_close and close
operations starting from an empty ledger, every position still in the open
map satisfies sum(partial-close quantities) + remaining = original exactly,
and every position returned from a full close satisfies
sum + remaining ≤ original, with original - 1e-8 ≤ sum + remaining whenever
the position has at least one partial-close record.  (A close() with no
prior partial closes records no partial-close entry, so there
sum + remaining = 0.) -/
theorem trading_C1_ledger_invariant (ops : List LedgerOp) :
    (∀ kv ∈ (ledgerRun PositionManager.empty ops).manager.positions,
      sumPartialQuantities kv.2 + kv.2.quantity = kv.2.originalQuantity) ∧
    ∀ p ∈ (ledgerRun PositionManager.empty ops).finished,
      sumPartialQuantities p + p.quantity ≤ p.originalQuantity ∧
        (p.partialCloses ≠ [] →
          p.originalQuantity - closeTolerance ≤
            sumPartialQuantities p + p.quantity) := by
  have hempty : ManagerInv PositionManager.empty := by
    intro kv hkv
    simp [PositionManager.empty] at hkv
  obtain ⟨h1, h2⟩ := ledgerRun_inv ops PositionManager.empty hempty
  exact ⟨fun kv hkv => (h1 kv hkv).2.2, fun p hp => h2 p hp⟩

/-- Operations for the C1 witness: open quantity 1, partially close 1/2. -/
def c1WitnessOps : List LedgerOp :=
  [.openPos "BTCUSDT" "scalp" "BUY" 100 1 99 102,
   .pclose "BTCUSDT" "scalp" (1/2) 101 "partial_profit" 0]

/-- The open position left by c1WitnessOps. -/
def c1WitnessPos : Position :=
  { symbol := "BTCUSDT", strategy := "scalp", action := "BUY",
    entryPrice := 100, originalQuantity := 1, quantity := 1/2,
    stopLoss := 99, takeProfit := 102, exitPrice := none, pnl := 0,
    pnlPct := 0, status := "OPEN", exitReason := none,
    partialCloses := [⟨1/2, 101, 1/2, "partial_profit", 0⟩],
    totalPartialPnl := 1/2 }

/-- C1 witness: the amended invariant evaluated on a concrete run. -/
theorem trading_C1_witness :
    sumPartialQuantities c1WitnessPos + c1WitnessPos.quantity =
      c1WitnessPos.originalQuantity :=
  (trading_C1_ledger_invariant c1WitnessOps).1 ("BTCUSDT_scalp", c1WitnessPos)
    (by norm_num [c1WitnessOps, ledgerRun, ledgerStep,
      PositionManager.openPosition, PositionManager.partialClosePosition,
      Position.make, Position.partialClose, sidePnl,
      validateStopLossTakeProfit, validatePrice, validateQuantity, safeDivide,
      lookupKey, updateKey, posKey, PositionManager.empty, c1WitnessPos,
      closeTolerance,
      show pyToUpper "BUY" = "BUY" from by decide,
      show ("BTCUSDT" ++ "_" ++ "scalp" : String) = "BTCUSDT_scalp"
        from by decide])

/-- C3: for any sequence of partial_close/close calls (no re-opens) against
a ledger holding one freshly opened position of quantity q, the total of all
closed_quantity values returned for that key never exceeds q, the original
quantity — each requested close quantity having been clamped to the
remaining quantity. -/
theorem trading_C3_closed_quantity_bound (symbol strategy action : String)
    (e q sl tp : ℚ) (ops : List LedgerOp)
    (hops : ∀ op ∈ ops, op.isOpenOp = false)
    (hopen : (PositionManager.empty.openPosition symbol strategy action
      e q sl tp).1 = true) :
    closedQuantitySum (posKey symbol strategy)
      (ledgerRun (PositionManager.empty.openPosition symbol strategy action
        e q sl tp).2 ops).closedQty ≤ q := by
  have hlu0 : lookupKey PositionManager.empty.positions
      (posKey symbol strategy) = none := rfl
  by_cases h2 : validateStopLossTakeProfit e sl tp action = true
  · rcases hmk : Position.make symbol strategy action e q sl tp with err | p
    · rw [PositionManager.openPosition] at hopen
      rw [hlu0] at hopen
      simp [h2, hmk] at hopen
    · have hm2 : (PositionManager.empty.openPosition symbol strategy action
          e q sl tp).2 =
          { positions := [(posKey symbol strategy, p)] } := by
        rw [PositionManager.openPosition, hlu0]
        simp [h2, hmk, PositionManager.empty]
      have hminv : ManagerInv { positions := [(posKey symbol strategy, p)] } := by
        intro kv hkv
        have : kv = (posKey symbol strategy, p) := by simpa using hkv
        rw [this]
        exact (make_ok_spec hmk).1
      have hbound := run_closedQuantitySum ops _ (posKey symbol strategy)
        (hm2 ▸ hminv) hops
      have hrem : remainingAt (PositionManager.empty.openPosition symbol
          strategy action e q sl tp).2 (posKey symbol strategy) = q := by
        rw [hm2]
        rw [remainingAt_eq _ _ (p := p) (by simp [lookupKey])]
        exact (make_ok_spec hmk).2.1
      rw [hrem] at hbound
      exact hbound
  · rw [PositionManager.openPosition] at hopen
    rw [hlu0] at hopen
    simp [bool_eq_false h2] at hopen

/-- C3 witness: two partial closes of 3/4 each against a position of
quantity 1 return clamped quantities totalling at most 1. -/
theorem trading_C3_witness :
    closedQuantitySum (posKey "BTCUSDT" "scalp")
      (ledgerRun (PositionManager.empty.openPosition "BTCUSDT" "scalp" "BUY"
        100 1 99 102).2
        [.pclose "BTCUSDT" "scalp" (3/4) 101 "p1" 0,
         .pclose "BTCUSDT" "scalp" (3/4) 101 "p2" 0]).closedQty ≤ 1 :=
  trading_C3_closed_quantity_bound "BTCUSDT" "scalp" "BUY" 100 1 99 102 _
    (by decide)
    (by norm_num [PositionManager.openPosition, Position.make,
      validateStopLossTakeProfit, validatePrice, validateQuantity,
      lookupKey, PositionManager.empty,
      show pyToUpper "BUY" = "BUY" from by decide])

/-- C4: partial_close_position and close_position on a key absent from the
open-position map return the not-found sentinel None and leave the manager
(open-position map and all stored Positions) unchanged; no exception
escapes. -/
theorem trading_C4_missing_key_noop (m : PositionManager)
    (symbol strategy : String) (cq ep : ℚ) (reason : String) (fees : ℚ)
    (h : lookupKey m.positions (posKey symbol strategy) = none) :
    m.partialClosePosition symbol strategy cq ep reason fees = (none, m) ∧
    m.closePosition symbol strategy ep reason fees = (none, m) := by
  constructor
  · simp [PositionManager.partialClosePosition, h]
  · simp [PositionManager.closePosition, h]

/-- Manager holding one position at a different key, for the C4 witness. -/
def c4Manager : PositionManager :=
  (PositionManager.empty.openPosition "ETHUSDT" "scalp" "BUY" 100 1 99 102).2

/-- C4 witness: closing a never-opened key is a no-op on a concrete
manager. -/
theorem trading_C4_witness :
    c4Manager.partialClosePosition "BTCUSDT" "scalp" 1 100 "stop" 0 =
      (none, c4Manager) ∧
    c4Manager.closePosition "BTCUSDT" "scalp" 100 "stop" 0 =
      (none, c4Manager) :=
  trading_C4_missing_key_noop c4Manager "BTCUSDT" "scalp" 1 100 "stop" 0
    (by norm_num [c4Manager, PositionManager.openPosition, Position.make,
      validateStopLossTakeProfit, validatePrice, validateQuantity,
      lookupKey, posKey, PositionManager.empty,
      show pyToUpper "BUY" = "BUY" from by decide,
      show ¬ ("ETHUSDT" ++ "_" ++ "scalp" = "BTCUSDT" ++ "_" ++ "scalp")
        from by decide])

/-- C10: open_position returns False and leaves the map unchanged whenever
the entry price is non-positive or exceeds the validate_price sanity cap of
1,000,000, or the quantity is non-positive (the ValueError raised by the
Position constructor is caught inside open_position). -/
theorem trading_C10_open_rejects_invalid (m : PositionManager)
    (symbol strategy action : String) (e q sl tp : ℚ)
    (h : e ≤ 0 ∨ 1000000 < e ∨ q ≤ 0) :
    m.openPosition symbol strategy action e q sl tp = (false, m) := by
  rw [PositionManager.openPosition]
  by_cases h1 : (lookupKey m.positions (posKey symbol strategy)).isSome
  · simp [h1]
  · have h1f := bool_eq_false h1
    have hcases : validatePrice e = false ∨ q ≤ 0 := by
      rcases h with he | he | hq
      · left; simp [validatePrice]; intro h0; linarith
      · left; simp [validatePrice]; intro _; linarith
      · right; exact hq
    rcases hcases with hvp | hq
    · have hsltp : validateStopLossTakeProfit e sl tp action = false := by
        rw [validateStopLossTakeProfit]
        rw [hvp]
        simp
      simp [h1f, hsltp]
    · by_cases h2 : validateStopLossTakeProfit e sl tp action = true
      · rcases hmk : Position.make symbol strategy action e q sl tp with err | p
        · simp [h1f, h2, hmk]
        · exfalso
          have := (make_ok_spec hmk).2.2.2
          linarith
      · simp [h1f, bool_eq_false h2]

/-- C10 witness: a zero entry price is rejected without touching the map. -/
theorem trading_C10_witness :
    PositionManager.empty.openPosition "BTCUSDT" "scalp" "BUY" 0 1 99 102 =
      (false, PositionManager.empty) :=
  trading_C10_open_rejects_invalid PositionManager.empty "BTCUSDT" "scalp"
    "BUY" 0 1 99 102 (Or.inl (by norm_num))

/-- Reasons returned by the risk gate (the formatted message strings of the
source are abstracted into labels; "OK" is RiskReason.ok). -/
inductive RiskReason where
  | ok
  | dailyTradeLimit
  | dailyLossLimit
  | drawdownLimit
  | maxPositions
deriving Repr, DecidableEq

/-- risk_manager.RiskManager: configuration and tracking state. -/
structure RiskManager where
  maxPositionSizePct : ℚ
  maxTotalPositions : ℕ
  maxDailyTrades : ℕ
  maxDailyLossPct : ℚ
  maxDrawdownPct : ℚ
  stopLossPct : ℚ
  takeProfitPct : ℚ
  basePositionSizePct : ℚ
  minPositionSizeUsd : ℚ
  maxPositionSizeUsd : ℚ
  initialCapital : ℚ
  currentCapital : ℚ
  peakCapital : ℚ
  dailyTradesCount : ℕ
  dailyPnl : ℚ
  lastResetDate : String
deriving Repr, DecidableEq

/-- RiskManager.reset_daily_stats: zero the daily counters on a new day. -/
def RiskManager.resetDailyStats (rm : RiskManager) (today : String) :
    RiskManager :=
  if today ≠ rm.lastResetDate then
    { rm with dailyTradesCount := 0, dailyPnl := 0, lastResetDate := today }
  else rm

/-- RiskManager.can_trade: daily-rollover check, then the daily trade
limit, the daily loss limit against INITIAL capital, and the drawdown
limit against peak capital.  Returns the mutated state together with the
(allowed, reason) pair. -/
def RiskManager.canTrade (rm : RiskManager) (today : String) :
    RiskManager × Bool × RiskReason :=
  let s := rm.resetDailyStats today
  if s.maxDailyTrades ≤ s.dailyTradesCount then
    (s, false, .dailyTradeLimit)
  else if 0 < s.initialCapital ∧
      s.maxDailyLossPct ≤ safeDivide (-s.dailyPnl) s.initialCapital 0 * 100 then
    (s, false, .dailyLossLimit)
  else if 0 < s.peakCapital ∧
      s.maxDrawdownPct ≤
        safeDivide (s.peakCapital - s.currentCapital) s.peakCapital 0 * 100 then
    (s, false, .drawdownLimit)
  else (s, true, .ok)

/-- RiskManager.can_open_position: reject on the open-position cap, else
delegate to can_trade. -/
def RiskManager.canOpenPosition (rm : RiskManager)
    (currentPositionsCount : ℕ) (today : String) :
    RiskManager × Bool × RiskReason :=
  if rm.maxTotalPositions ≤ currentPositionsCount then
    (rm, false, .maxPositions)
  else rm.canTrade today

/-- RiskManager.calculate_position_size: confidence clamped to [0,100],
size percentage capped at max_position_size_pct, notional clamped to
[min_usd, max_usd], quantity = notional / entry price. -/
def RiskManager.calculatePositionSize (rm : RiskManager)
    (entryPrice : ℚ) (confidence : ℚ) : ℚ :=
  if !validatePrice entryPrice then 0
  else
    let c := clampValue confidence 0 100
    let sizePct := min (rm.basePositionSizePct * (c / 100)) rm.maxPositionSizePct
    let positionValueUsd := safeDivide (rm.currentCapital * sizePct) 100 0
    let clamped := clampValue positionValueUsd rm.minPositionSizeUsd
      rm.maxPositionSizeUsd
    safeDivide clamped entryPrice 0

lemma safeDivide_of_pos {b : ℚ} (h : 0 < b) (a d : ℚ) :
    safeDivide a b d = a / b := by
  rw [safeDivide, if_neg (ne_of_gt h)]

/-- Daily-loss rejection condition of can_trade, with plain division:
the loss percentage is measured against the INITIAL capital. -/
def dailyLossCondition (s : RiskManager) : Prop :=
  0 < s.initialCapital ∧
    s.maxDailyLossPct ≤ (-s.dailyPnl) / s.initialCapital * 100

/-- Drawdown rejection condition of can_trade, with plain division. -/
def drawdownCondition (s : RiskManager) : Prop :=
  0 < s.peakCapital ∧
    s.maxDrawdownPct ≤
      (s.peakCapital - s.currentCapital) / s.peakCapital * 100

lemma dailyLoss_cond_iff (s : RiskManager) :
    (0 < s.initialCapital ∧
      s.maxDailyLossPct ≤ safeDivide (-s.dailyPnl) s.initialCapital 0 * 100) ↔
    dailyLossCondition s := by
  constructor
  · rintro ⟨hb, hp⟩
    exact ⟨hb, by rwa [safeDivide_of_pos hb] at hp⟩
  · rintro ⟨hb, hp⟩
    exact ⟨hb, by rwa [safeDivide_of_pos hb]⟩

lemma drawdown_cond_iff (s : RiskManager) :
    (0 < s.peakCapital ∧
      s.maxDrawdownPct ≤
        safeDivide (s.peakCapital - s.currentCapital) s.peakCapital 0 * 100) ↔
    drawdownCondition s := by
  constructor
  · rintro ⟨hb, hp⟩
    exact ⟨hb, by rwa [safeDivide_of_pos hb] at hp⟩
  · rintro ⟨hb, hp⟩
    exact ⟨hb, by rwa [safeDivide_of_pos hb]⟩

/-- Default configuration with a concrete tracking state used by the risk
gate counterexamples and witnesses. -/
def baseRisk : RiskManager :=
  { maxPositionSizePct := 2, maxTotalPositions := 5, maxDailyTrades := 20,
    maxDailyLossPct := 2, maxDrawdownPct := 5, stopLossPct := 1,
    takeProfitPct := 2, basePositionSizePct := 1, minPositionSizeUsd := 10,
    maxPositionSizeUsd := 200, initialCapital := 100, currentCapital := 200,
    peakCapital := 200, dailyTradesCount := 0, dailyPnl := -3,
    lastResetDate := "2026-10-11" }

/-- C6 counterexample: with initial capital $100, current capital $200 and
a daily loss of $3 (limit 2%), the code rejects (3/100 = 3% ≥ 2% of the
INITIAL capital) although the loss is below 2% of the CURRENT capital
($4) and every condition of the claim is satisfied. -/
theorem trading_C6_counterexample :
    (baseRisk.canTrade "2026-10-11").2.1 = false ∧
    (baseRisk.canTrade "2026-10-11").2.2 = RiskReason.dailyLossLimit ∧
    baseRisk.dailyTradesCount < baseRisk.maxDailyTrades ∧
    -baseRisk.dailyPnl <
      baseRisk.maxDailyLossPct / 100 * baseRisk.currentCapital ∧
    (baseRisk.peakCapital - baseRisk.currentCapital) /
        baseRisk.peakCapital * 100 < baseRisk.maxDrawdownPct := by
  norm_num [baseRisk, RiskManager.canTrade, RiskManager.resetDailyStats,
    safeDivide]

/-- C6 (amended): after the daily rollover, can_trade returns (false, _)
exactly when the daily trade count reached max_daily_trades, or the daily
loss reached max_daily_loss_pct percent of the INITIAL capital (when
positive), or the drawdown from peak reached max_drawdown_pct (when the
peak is positive); otherwise it returns (true, OK). -/
theorem trading_C6_can_trade_conditions (rm : RiskManager) (today : String) :
    (rm.canTrade today).1 = rm.resetDailyStats today ∧
    ((rm.canTrade today).2.1 = false ↔
      ((rm.resetDailyStats today).maxDailyTrades ≤
          (rm.resetDailyStats today).dailyTradesCount ∨
        dailyLossCondition (rm.resetDailyStats today) ∨
        drawdownCondition (rm.resetDailyStats today))) ∧
    ((rm.canTrade today).2.1 = true → (rm.canTrade today).2.2 = .ok) := by
  simp only [RiskManager.canTrade]
  by_cases h1 : (rm.resetDailyStats today).maxDailyTrades ≤
      (rm.resetDailyStats today).dailyTradesCount
  · simp only [if_pos h1]
    exact ⟨by trivial, by simp [h1], by simp⟩
  · rw [if_neg h1]
    by_cases h2 : 0 < (rm.resetDailyStats today).initialCapital ∧
        (rm.resetDailyStats today).maxDailyLossPct ≤
          safeDivide (-(rm.resetDailyStats today).dailyPnl)
            (rm.resetDailyStats today).initialCapital 0 * 100
    · simp only [if_pos h2]
      refine ⟨by trivial, ?_, by simp⟩
      simp only [eq_self_iff_true, true_iff]
      exact Or.inr (Or.inl ((dailyLoss_cond_iff _).mp h2))
    · rw [if_neg h2]
      by_cases h3 : 0 < (rm.resetDailyStats today).peakCapital ∧
          (rm.resetDailyStats today).maxDrawdownPct ≤
            safeDivide ((rm.resetDailyStats today).peakCapital -
                (rm.resetDailyStats today).currentCapital)
              (rm.resetDailyStats today).peakCapital 0 * 100
      · simp only [if_pos h3]
        refine ⟨by trivial, ?_, by simp⟩
        simp only [eq_self_iff_true, true_iff]
        exact Or.inr (Or.inr ((drawdown_cond_iff _).mp h3))
      · rw [if_neg h3]
        refine ⟨by trivial, ?_, fun _ => rfl⟩
        constructor
        · intro hfalse
          simp at hfalse
        · intro hor
          exfalso
          rcases hor with h | h | h
          · exact h1 h
          · exact h2 ((dailyLoss_cond_iff _).mpr h)
          · exact h3 ((drawdown_cond_iff _).mpr h)

/-- C6 witness: the amended characterization applied to the concrete state
of the counterexample gives a rejection. -/
theorem trading_C6_witness :
    (baseRisk.canTrade "2026-10-11").2.1 = false :=
  (trading_C6_can_trade_conditions baseRisk "2026-10-11").2.1.mpr
    (Or.inr (Or.inl (by
      norm_num [baseRisk, RiskManager.resetDailyStats, dailyLossCondition])))

/-- Risk state whose daily trade budget is exhausted, for C8. -/
def c8State : RiskManager :=
  { baseRisk with dailyTradesCount := 20, dailyPnl := 0 }

/-- C8 counterexample: with max_total_positions = 5 and the daily trade
limit already reached, can_open_position(4) returns false although
4 = max_total_positions - 1 and 4 < max_total_positions — the claim's
"returns (true, ...) for open_count = max − 1 for every risk state" is
violated because can_open_position also delegates to can_trade. -/
theorem trading_C8_counterexample :
    (c8State.canOpenPosition 4 "2026-10-11").2.1 = false ∧
    4 = c8State.maxTotalPositions - 1 ∧
    ¬ c8State.maxTotalPositions ≤ 4 := by
  norm_num [c8State, baseRisk, RiskManager.canOpenPosition,
    RiskManager.canTrade, RiskManager.resetDailyStats, safeDivide]

/-- C8 (amended): can_open_position returns (false, maxPositions) exactly
when open_count ≥ max_total_positions, and otherwise returns exactly what
can_trade returns — so at open_count = max_total_positions − 1 the result
is (true, ...) only when can_trade passes, and at max_total_positions it is
always (false, ...). -/
theorem trading_C8_can_open_boundary (rm : RiskManager) (count : ℕ)
    (today : String) :
    (rm.maxTotalPositions ≤ count →
      rm.canOpenPosition count today = (rm, false, .maxPositions)) ∧
    (count < rm.maxTotalPositions →
      rm.canOpenPosition count today = rm.canTrade today) := by
  constructor
  · intro h
    rw [RiskManager.canOpenPosition, if_pos h]
  · intro h
    rw [RiskManager.canOpenPosition, if_neg (not_le.mpr h)]

/-- C8 witness: at open_count = max_total_positions the gate always
rejects with the max-positions reason. -/
theorem trading_C8_witness :
    c8State.canOpenPosition 5 "2026-10-11" =
      (c8State, false, .maxPositions) :=
  (trading_C8_can_open_boundary c8State 5 "2026-10-11").1
    (by norm_num [c8State, baseRisk])

/-- Risk state with $10,000 capital, for C9. -/
def c9State : RiskManager := { baseRisk with currentCapital := 10000 }

/-- C9 counterexample: at confidence 200 the code first clamps confidence
to 100 and returns quantity 1, while the claim's formula (confidence used
unclamped) gives 2. -/
theorem trading_C9_counterexample :
    c9State.calculatePositionSize 100 200 = 1 ∧
    clampValue (c9State.currentCapital *
        min (c9State.basePositionSizePct * (200 / 100))
          c9State.maxPositionSizePct / 100)
      c9State.minPositionSizeUsd c9State.maxPositionSizeUsd / 100 = 2 := by
  norm_num [c9State, baseRisk, RiskManager.calculatePositionSize,
    clampValue, safeDivide, validatePrice]

/-- C9 (amended): for every valid entry price, the returned quantity is
clamp(current_capital × min(base_pct × clamp(confidence,0,100)/100,
max_pct)/100, min_usd, max_usd) / entry_price, and with a positive
configured minimum notional (min_usd ≤ max_usd) the quantity is strictly
positive even at zero capital. -/
theorem trading_C9_position_size (rm : RiskManager) (e conf : ℚ)
    (h : validatePrice e = true) :
    rm.calculatePositionSize e conf =
      clampValue (rm.currentCapital *
          min (rm.basePositionSizePct * (clampValue conf 0 100 / 100))
            rm.maxPositionSizePct / 100)
        rm.minPositionSizeUsd rm.maxPositionSizeUsd / e ∧
    (0 < rm.minPositionSizeUsd →
      rm.minPositionSizeUsd ≤ rm.maxPositionSizeUsd →
      0 < rm.calculatePositionSize e conf) := by
  have he : 0 < e := by
    simp [validatePrice] at h
    exact h.1
  have heq : rm.calculatePositionSize e conf =
      clampValue (rm.currentCapital *
          min (rm.basePositionSizePct * (clampValue conf 0 100 / 100))
            rm.maxPositionSizePct / 100)
        rm.minPositionSizeUsd rm.maxPositionSizeUsd / e := by
    simp only [RiskManager.calculatePositionSize]
    rw [if_neg (by simp [h])]
    rw [safeDivide_of_pos (by norm_num : (0:ℚ) < 100),
      safeDivide_of_pos he]
  refine ⟨heq, ?_⟩
  intro hmin hminmax
  rw [heq]
  apply div_pos _ he
  rw [clampValue]
  split
  · exact hmin
  · split
    · linarith
    · next h1 _ => linarith [not_lt.mp h1]

/-- C9 witness: the amended formula and positivity at a concrete state. -/
theorem trading_C9_witness :
    c9State.calculatePositionSize 100 50 =
      clampValue (c9State.currentCapital *
          min (c9State.basePositionSizePct * (clampValue 50 0 100 / 100))
            c9State.maxPositionSizePct / 100)
        c9State.minPositionSizeUsd c9State.maxPositionSizeUsd / 100 ∧
    0 < c9State.calculatePositionSize 100 50 := by
  have h := trading_C9_position_size c9State 100 50
    (by norm_num [validatePrice])
  exact ⟨h.1, h.2 (by norm_num [c9State, baseRisk])
    (by norm_num [c9State, baseRisk])⟩

/-- Python str.lower() (ASCII). -/
def pyToLower (s : String) : String := String.mk (s.data.map Char.toLower)

/-- fee_calculator.FeeCalculator: fee rates fixed at construction. -/
structure FeeCalculator where
  tradingType : String
  useMaker : Bool
  exchange : String
  makerFee : ℚ
  takerFee : ℚ
deriving Repr, DecidableEq

/-- FeeCalculator.__init__: lowercase the inputs and pick the exchange's
spot fees (Bybit 0.055%/0.075%, Binance 0.1%/0.1%) or the futures fees
(0.02%/0.04%). -/
def FeeCalculator.make (tradingType0 : String) (useMaker : Bool)
    (exchange0 : String) : FeeCalculator :=
  let t := pyToLower tradingType0
  let e := pyToLower exchange0
  if t = "spot" then
    if e = "bybit" then ⟨t, useMaker, e, 55/100000, 75/100000⟩
    else ⟨t, useMaker, e, 1/1000, 1/1000⟩
  else ⟨t, useMaker, e, 2/10000, 4/10000⟩

/-- FeeCalculator.calculate_entry_fee: 0 for an invalid order value, else
value × rate, floored at 0. -/
def FeeCalculator.calculateEntryFee (fc : FeeCalculator)
    (orderValueUsd : ℚ) : ℚ :=
  if !validatePrice orderValueUsd then 0
  else
    let feeRate := if fc.useMaker then fc.makerFee else fc.takerFee
    max 0 (orderValueUsd * feeRate)

/-- FeeCalculator.calculate_exit_fee delegates to calculate_entry_fee. -/
def FeeCalculator.calculateExitFee (fc : FeeCalculator)
    (orderValueUsd : ℚ) : ℚ :=
  fc.calculateEntryFee orderValueUsd

/-- slippage_simulator.SlippageSimulator.SLIPPAGE_RATES lookup with the
"default" fallback. -/
def slippageRate (symbol : String) : ℚ :=
  let s := pyToUpper symbol
  if s = "BTCUSDT" then 2/10000
  else if s = "ETHUSDT" then 2/10000
  else if s = "BNBUSDT" then 3/10000
  else if s = "SOLUSDT" then 4/10000
  else if s = "XRPUSDT" then 4/10000
  else if s = "ADAUSDT" then 5/10000
  else if s = "DOGEUSDT" then 5/10000
  else if s = "MATICUSDT" then 5/10000
  else 5/10000

/-- SlippageSimulator.calculate_slippage: base rate scaled by
1 + 0.5 × volatility, clamped to [0.0001, 0.002], signed by side. -/
def calculateSlippage (symbol : String) (price : ℚ) (action : String)
    (volatility : ℚ) : ℚ :=
  if !validatePrice price then 0
  else
    let baseRate := slippageRate symbol
    let volatilityMultiplier := 1 + volatility * (5/10)
    let rate := clampValue (baseRate * volatilityMultiplier) (1/10000) (2/1000)
    if pyToUpper action = "BUY" then price * rate else -(price * rate)

/-- slippage_simulator.SpreadSimulator.SPREAD_RATES lookup with the
"default" fallback. -/
def spreadRate (symbol : String) : ℚ :=
  let s := pyToUpper symbol
  if s = "BTCUSDT" then 3/10000
  else if s = "ETHUSDT" then 4/10000
  else if s = "BNBUSDT" then 5/10000
  else if s = "SOLUSDT" then 6/10000
  else if s = "XRPUSDT" then 7/10000
  else if s = "ADAUSDT" then 8/10000
  else if s = "DOGEUSDT" then 8/10000
  else if s = "MATICUSDT" then 8/10000
  else if s = "DOTUSDT" then 8/10000
  else if s = "AVAXUSDT" then 8/10000
  else if s = "LINKUSDT" then 8/10000
  else if s = "NEARUSDT" then 9/10000
  else if s = "OPUSDT" then 9/10000
  else if s = "INJUSDT" then 9/10000
  else if s = "RNDRUSDT" then 9/10000
  else if s = "FTMUSDT" then 9/10000
  else if s = "TIAUSDT" then 10/10000
  else if s = "LTCUSDT" then 7/10000
  else if s = "ATOMUSDT" then 8/10000
  else if s = "SUIUSDT" then 10/10000
  else 10/10000

/-- Result dict of ProfitCalculator.calculate_net_profit. -/
structure ProfitResult where
  grossProfit : ℚ
  entryFee : ℚ
  exitFee : ℚ
  entrySlippage : ℚ
  exitSlippage : ℚ
  spreadCost : ℚ
  totalCosts : ℚ
  netProfit : ℚ
  profitPct : ℚ
deriving Repr, DecidableEq

/-- ProfitCalculator._empty_result: the all-zero no-op result. -/
def emptyProfitResult : ProfitResult := ⟨0, 0, 0, 0, 0, 0, 0, 0, 0⟩

/-- profit_calculator.ProfitCalculator. -/
structure ProfitCalculator where
  exchange : String
  feeCalc : FeeCalculator
  tradingType : String
deriving Repr, DecidableEq

/-- ProfitCalculator.__init__. -/
def ProfitCalculator.make (tradingType : String) (useMaker : Bool)
    (exchange : String) : ProfitCalculator :=
  ⟨exchange, FeeCalculator.make tradingType useMaker exchange, tradingType⟩

/-- ProfitCalculator.calculate_net_profit: validate the three numeric
inputs with validate_price, else combine side-aware gross P&L with entry
fee, exit fee, entry/exit slippage (absolute, × quantity) and spread cost;
profit percentage is net profit over the entry notional. -/
def ProfitCalculator.calculateNetProfit (pc : ProfitCalculator)
    (symbol : String) (entryPrice exitPrice quantity : ℚ) (action : String)
    (volatility : ℚ) : ProfitResult :=
  if !(validatePrice entryPrice && validatePrice exitPrice &&
      validatePrice quantity) then emptyProfitResult
  else
    let positionValue := quantity * entryPrice
    let entryFee := pc.feeCalc.calculateEntryFee positionValue
    let exitValue := quantity * exitPrice
    let exitFee := pc.feeCalc.calculateExitFee exitValue
    let entrySlippage :=
      |calculateSlippage symbol entryPrice action volatility| * quantity
    let exitAction := if action = "BUY" then "SELL" else "BUY"
    let exitSlippage :=
      |calculateSlippage symbol exitPrice exitAction volatility| * quantity
    let spreadCost := positionValue * spreadRate symbol
    let grossProfit :=
      if action = "BUY" then quantity * (exitPrice - entryPrice)
      else quantity * (entryPrice - exitPrice)
    let totalCosts := entryFee + exitFee + entrySlippage + exitSlippage +
      spreadCost
    let netProfit := grossProfit - totalCosts
    let profitPct := safeDivide netProfit positionValue 0 * 100
    ⟨grossProfit, entryFee, exitFee, entrySlippage, exitSlippage, spreadCost,
      totalCosts, netProfit, profitPct⟩

/-- C5: for inputs passing validate_price, calculate_net_profit returns the
side-aware gross P&L, net profit equal to gross minus the sum of entry fee,
exit fee, entry slippage, exit slippage and spread cost, and a profit
percentage of net profit over the entry notional; for any non-positive
entry price, exit price or quantity it returns the all-zero no-op result. -/
theorem trading_C5_net_profit (pc : ProfitCalculator) (symbol : String)
    (e x q : ℚ) (action : String) (vol : ℚ) :
    (validatePrice e = true → validatePrice x = true →
      validatePrice q = true →
      ((action = "BUY" →
        (pc.calculateNetProfit symbol e x q action vol).grossProfit =
          q * (x - e)) ∧
      (action = "SELL" →
        (pc.calculateNetProfit symbol e x q action vol).grossProfit =
          q * (e - x)) ∧
      (pc.calculateNetProfit symbol e x q action vol).netProfit =
        (pc.calculateNetProfit symbol e x q action vol).grossProfit -
          ((pc.calculateNetProfit symbol e x q action vol).entryFee +
            (pc.calculateNetProfit symbol e x q action vol).exitFee +
            (pc.calculateNetProfit symbol e x q action vol).entrySlippage +
            (pc.calculateNetProfit symbol e x q action vol).exitSlippage +
            (pc.calculateNetProfit symbol e x q action vol).spreadCost) ∧
      (pc.calculateNetProfit symbol e x q action vol).profitPct =
        (pc.calculateNetProfit symbol e x q action vol).netProfit /
          (e * q) * 100)) ∧
    (e ≤ 0 ∨ x ≤ 0 ∨ q ≤ 0 →
      pc.calculateNetProfit symbol e x q action vol = emptyProfitResult) := by
  constructor
  · intro he hx hq
    have he0 : 0 < e := by
      simp [validatePrice] at he
      exact he.1
    have hq0 : 0 < q := by
      simp [validatePrice] at hq
      exact hq.1
    have hval : ¬ (!(validatePrice e && validatePrice x &&
        validatePrice q)) = true := by
      simp [he, hx, hq]
    refine ⟨?_, ?_, ?_, ?_⟩
    · intro ha
      simp only [ProfitCalculator.calculateNetProfit, if_neg hval, ha,
        if_pos]
    · intro ha
      have hne : ¬ (action = "BUY") := by
        rw [ha]
        intro hcontra
        exact absurd hcontra (by decide)
      simp only [ProfitCalculator.calculateNetProfit, if_neg hval,
        if_neg hne]
    · simp only [ProfitCalculator.calculateNetProfit, if_neg hval]
    · simp only [ProfitCalculator.calculateNetProfit, if_neg hval]
      rw [safeDivide_of_pos (mul_pos hq0 he0), mul_comm q e]
  · intro h
    have hval : (validatePrice e && validatePrice x &&
        validatePrice q) = false := by
      rcases h with h | h | h
      · have : validatePrice e = false := by
          simp [validatePrice]
          intro h0
          linarith
        simp [this]
      · have : validatePrice x = false := by
          simp [validatePrice]
          intro h0
          linarith
        simp [this]
      · have : validatePrice q = false := by
          simp [validatePrice]
          intro h0
          linarith
        simp [this]
    simp [ProfitCalculator.calculateNetProfit, hval]

/-- The concrete profit calculator of the C5 witness. -/
def c5Pc : ProfitCalculator := ProfitCalculator.make "spot" false "bybit"

/-- The concrete result of the C5 witness. -/
def c5Result : ProfitResult :=
  c5Pc.calculateNetProfit "BTCUSDT" 100 102 1 "BUY" 0

/-- C5 witness: the formulas evaluated on a concrete BUY round trip. -/
theorem trading_C5_witness :
    validatePrice 100 = true ∧
    c5Result.grossProfit = 1 * (102 - 100) ∧
    c5Result.netProfit = c5Result.grossProfit - (c5Result.entryFee +
      c5Result.exitFee + c5Result.entrySlippage + c5Result.exitSlippage +
      c5Result.spreadCost) ∧
    c5Result.profitPct = c5Result.netProfit / (100 * 1) * 100 := by
  have h := (trading_C5_net_profit c5Pc "BTCUSDT" 100 102 1 "BUY" 0).1
    (by norm_num [validatePrice]) (by norm_num [validatePrice])
    (by norm_num [validatePrice])
  exact ⟨by norm_num [validatePrice], h.1 rfl, h.2.2.1, h.2.2.2⟩

/-- Exit signal kinds emitted by the real-time monitor (the signal strings
TAKE_PROFIT / PARTIAL_FEES_PROFIT / BREAKEVEN_PROFIT / STOP_LOSS). -/
inductive ExitSignal where
  | takeProfit
  | partialFeesProfit
  | breakevenProfit
  | stopLoss
deriving Repr, DecidableEq

/-- One monitored-position dict entry of RealTimePriceMonitor. -/
structure MonitorInfo where
  symbol : String
  strategy : String
  entryPrice : ℚ
  quantity : ℚ
  targetPrice : ℚ
  stopPrice : ℚ
  breakevenProfitPrice : Option ℚ
  targetProfitPct : ℚ
  stopLossPct : ℚ
  action : String
  partialProfitEnabled : Bool
deriving Repr, DecidableEq

/-- Python truthiness of the breakeven price (None and 0.0 are falsy). -/
def bpTruthy : Option ℚ → Bool
  | none => false
  | some b => b != 0

/-- Numeric value of the breakeven price (only used when truthy). -/
def bpValue : Option ℚ → ℚ
  | none => 0
  | some b => b

/-- The (target_reached, breakeven_profit_reached, stop_hit) booleans of
one loop iteration: a single if/elif/elif chain per side, so at most one
flag is set. -/
def monitorFlags (info : MonitorInfo) (p : ℚ) : Bool × Bool × Bool :=
  if info.action = "BUY" then
    if info.targetPrice ≤ p then (true, false, false)
    else if bpTruthy info.breakevenProfitPrice = true ∧
        bpValue info.breakevenProfitPrice ≤ p then (false, true, false)
    else if p ≤ info.stopPrice then (false, false, true)
    else (false, false, false)
  else
    if p ≤ info.targetPrice then (true, false, false)
    else if bpTruthy info.breakevenProfitPrice = true ∧
        p ≤ bpValue info.breakevenProfitPrice then (false, true, false)
    else if info.stopPrice ≤ p then (false, false, true)
    else (false, false, false)

/-- The emission chain: target, then breakeven (partial or full depending
on the flag), then stop; the first set flag wins. -/
def emitSignal (info : MonitorInfo) (p : ℚ) : Option ExitSignal :=
  if (monitorFlags info p).1 then some .takeProfit
  else if (monitorFlags info p).2.1 then
    if info.partialProfitEnabled then some .partialFeesProfit
    else some .breakevenProfit
  else if (monitorFlags info p).2.2 then some .stopLoss
  else none

/-- An event placed on the price_updates queue. -/
structure ExitEvent where
  key : String
  symbol : String
  strategy : String
  signal : ExitSignal
  currentPrice : ℚ
deriving Repr, DecidableEq

/-- Processing of one snapshot entry per tick: skip an empty symbol, a
missing price, or a zero price (Python falsiness of 0.0); otherwise emit
the signal chosen by the trigger chain, if any. -/
def monitorEntryEvent (getPrice : String → Option ℚ)
    (kv : String × MonitorInfo) : Option ExitEvent :=
  if kv.2.symbol = "" then none
  else
    match getPrice kv.2.symbol with
    | none => none
    | some p =>
      if p = 0 then none
      else (emitSignal kv.2 p).map fun sig =>
        ⟨kv.1, kv.2.symbol, kv.2.strategy, sig, p⟩

/-- One tick of the monitor loop over a lock-protected snapshot. -/
def monitorTick (snapshot : List (String × MonitorInfo))
    (getPrice : String → Option ℚ) : List ExitEvent :=
  snapshot.filterMap (monitorEntryEvent getPrice)

/-- Side-aware take-profit crossing, as the spec states it. -/
def targetCrossed (info : MonitorInfo) (p : ℚ) : Bool :=
  if info.action = "BUY" then decide (info.targetPrice ≤ p)
  else decide (p ≤ info.targetPrice)

/-- Side-aware breakeven+profit crossing (breakeven price truthy). -/
def breakevenCrossed (info : MonitorInfo) (p : ℚ) : Bool :=
  bpTruthy info.breakevenProfitPrice &&
    (if info.action = "BUY" then decide (bpValue info.breakevenProfitPrice ≤ p)
     else decide (p ≤ bpValue info.breakevenProfitPrice))

/-- Side-aware stop-loss crossing. -/
def stopCrossed (info : MonitorInfo) (p : ℚ) : Bool :=
  if info.action = "BUY" then decide (p ≤ info.stopPrice)
  else decide (info.stopPrice ≤ p)

lemma and_decide_false {a : Bool} {P : Prop} [Decidable P]
    (h : ¬ (a = true ∧ P)) : (a && decide P) = false := by
  rcases Bool.eq_false_or_eq_true a with ha | ha
  · rw [ha, Bool.true_and, decide_eq_false_iff_not]
    exact fun hp => h ⟨ha, hp⟩
  · rw [ha, Bool.false_and]

lemma monitorFlags_spec (info : MonitorInfo) (p : ℚ) :
    (monitorFlags info p).1 = targetCrossed info p ∧
    (monitorFlags info p).2.1 =
      (!targetCrossed info p && breakevenCrossed info p) ∧
    (monitorFlags info p).2.2 =
      (!targetCrossed info p && !breakevenCrossed info p &&
        stopCrossed info p) := by
  rw [monitorFlags, targetCrossed, breakevenCrossed, stopCrossed]
  by_cases ha : info.action = "BUY"
  · rw [if_pos ha, if_pos ha, if_pos ha, if_pos ha]
    split_ifs with h1 h2 h3
    · simp [h1]
    · simp [h1, h2.1, h2.2]
    · have hb := and_decide_false h2
      simp [h1, h3, hb]
    · have hb := and_decide_false h2
      simp [h1, h3, hb]
  · rw [if_neg ha, if_neg ha, if_neg ha, if_neg ha]
    split_ifs with h1 h2 h3
    · simp [h1]
    · simp [h1, h2.1, h2.2]
    · have hb := and_decide_false h2
      simp [h1, h3, hb]
    · have hb := and_decide_false h2
      simp [h1, h3, hb]

lemma monitorEntryEvent_key {getPrice : String → Option ℚ}
    {kv : String × MonitorInfo} {ev : ExitEvent}
    (h : monitorEntryEvent getPrice kv = some ev) : ev.key = kv.1 := by
  rw [monitorEntryEvent] at h
  split at h
  · exact absurd h (by simp)
  · split at h
    · exact absurd h (by simp)
    · split at h
      · exact absurd h (by simp)
      · rcases hsig : emitSignal kv.2 _ with _ | sig
        · rw [hsig] at h
          exact absurd h (by simp)
        · rw [hsig] at h
          obtain rfl : _ = ev := by simpa using h
          rfl

lemma filterMap_filter_length_le {α β : Type} (f : α → Option β)
    (pb : β → Bool) (qa : α → Bool)
    (hf : ∀ a b, f a = some b → pb b = true → qa a = true) :
    ∀ l : List α, ((l.filterMap f).filter pb).length ≤ (l.filter qa).length
  | [] => by simp
  | a :: l => by
    have ih := filterMap_filter_length_le f pb qa hf l
    rcases hfa : f a with _ | b
    · rw [List.filterMap_cons_none hfa, List.filter_cons]
      split
      · rw [List.length_cons]
        omega
      · exact ih
    · rw [List.filterMap_cons_some hfa, List.filter_cons, List.filter_cons]
      rcases Bool.eq_false_or_eq_true (pb b) with hpb | hpb
      · rw [if_pos hpb, if_pos (hf a b hfa hpb), List.length_cons,
          List.length_cons]
        omega
      · rw [if_neg (by simp [hpb])]
        split
        · rw [List.length_cons]
          omega
        · exact ih

lemma filter_fst_length_le_one {l : List (String × MonitorInfo)}
    {k : String} (h : (l.map Prod.fst).Nodup) :
    (l.filter fun kv => decide (kv.1 = k)).length ≤ 1 := by
  induction l with
  | nil => simp
  | cons kv l ih =>
    rw [List.map_cons, List.nodup_cons] at h
    rw [List.filter_cons]
    split
    · next hk =>
      have hk1 : kv.1 = k := by simpa using hk
      have hnil : (l.filter fun kv2 => decide (kv2.1 = k)) = [] := by
        rw [List.filter_eq_nil_iff]
        intro kv2 hkv2
        simp only [decide_eq_true_eq]
        intro hk2
        exact h.1 (by
          rw [hk1, ← hk2]
          exact List.mem_map_of_mem Prod.fst hkv2)
      rw [List.length_cons, hnil]
      simp
    · exact le_trans (ih h.2) (by omega)

/-- C2: per tick, the monitor emits at most one exit signal per monitored
key; the per-position trigger evaluation follows the strict priority
target → breakeven+profit → stop with the first match short-circuiting,
and in particular a price that simultaneously crosses the take-profit and
stop-loss thresholds (either side) yields TAKE_PROFIT, never STOP_LOSS. -/
theorem trading_C2_exit_priority (snapshot : List (String × MonitorInfo))
    (getPrice : String → Option ℚ) (key : String) (info : MonitorInfo)
    (p : ℚ) :
    ((snapshot.map Prod.fst).Nodup →
      ((monitorTick snapshot getPrice).filter fun ev =>
        decide (ev.key = key)).length ≤ 1) ∧
    (targetCrossed info p = true →
      emitSignal info p = some .takeProfit) ∧
    (info.action = "BUY" → info.targetPrice ≤ p → p ≤ info.stopPrice →
      emitSignal info p = some .takeProfit) ∧
    (info.action = "SELL" → p ≤ info.targetPrice → info.stopPrice ≤ p →
      emitSignal info p = some .takeProfit) ∧
    (targetCrossed info p = false → breakevenCrossed info p = true →
      emitSignal info p =
        some (if info.partialProfitEnabled then .partialFeesProfit
          else .breakevenProfit)) ∧
    (targetCrossed info p = false → breakevenCrossed info p = false →
      stopCrossed info p = true → emitSignal info p = some .stopLoss) ∧
    (targetCrossed info p = false → breakevenCrossed info p = false →
      stopCrossed info p = false → emitSignal info p = none) ∧
    (emitSignal info p = some .stopLoss →
      targetCrossed info p = false ∧ breakevenCrossed info p = false) := by
  obtain ⟨f1, f2, f3⟩ := monitorFlags_spec info p
  have htp : targetCrossed info p = true →
      emitSignal info p = some .takeProfit := by
    intro h
    rw [emitSignal, f1, if_pos h]
  refine ⟨?_, htp, ?_, ?_, ?_, ?_, ?_, ?_⟩
  · intro hnodup
    rw [monitorTick]
    exact le_trans
      (filterMap_filter_length_le (monitorEntryEvent getPrice)
        (fun ev => decide (ev.key = key)) (fun kv => decide (kv.1 = key))
        (fun a b hab hpb => by
          simp only [decide_eq_true_eq] at hpb ⊢
          rw [← monitorEntryEvent_key hab]
          exact hpb) snapshot)
      (filter_fst_length_le_one hnodup)
  · intro ha h1 _
    apply htp
    rw [targetCrossed, if_pos ha]
    simpa using h1
  · intro ha h1 _
    apply htp
    have hne : ¬ (info.action = "BUY") := by
      rw [ha]
      intro hcontra
      exact absurd hcontra (by decide)
    rw [targetCrossed, if_neg hne]
    simpa using h1
  · intro h1 h2
    rw [emitSignal, f1, f2]
    rw [h1, h2]
    rcases Bool.eq_false_or_eq_true info.partialProfitEnabled with hp | hp <;>
      simp [hp]
  · intro h1 h2 h3
    rw [emitSignal, f1, f2, f3]
    rw [h1, h2, h3]
    simp
  · intro h1 h2 h3
    rw [emitSignal, f1, f2, f3]
    rw [h1, h2, h3]
    simp
  · intro h
    rcases Bool.eq_false_or_eq_true (targetCrossed info p) with h1 | h1
    · rw [htp h1] at h
      exact absurd h (by simp)
    · rcases Bool.eq_false_or_eq_true (breakevenCrossed info p) with h2 | h2
      · have hbe : emitSignal info p =
            some (if info.partialProfitEnabled then ExitSignal.partialFeesProfit
              else ExitSignal.breakevenProfit) := by
          rw [emitSignal, f1, f2]
          rw [h1, h2]
          rcases Bool.eq_false_or_eq_true info.partialProfitEnabled with
            hp | hp <;> simp [hp]
        rw [hbe] at h
        rcases Bool.eq_false_or_eq_true info.partialProfitEnabled with
          hp | hp <;>
          · rw [hp] at h
            simp at h
      · exact ⟨h1, h2⟩

/-- Concrete monitored LONG position for the C2 witness: target 102,
stop 105 (pathological gap — the stop threshold sits above the target). -/
def c2Info : MonitorInfo :=
  { symbol := "BTCUSDT", strategy := "scalp", entryPrice := 100,
    quantity := 1, targetPrice := 102, stopPrice := 105,
    breakevenProfitPrice := some 101, targetProfitPct := 2,
    stopLossPct := 1, action := "BUY", partialProfitEnabled := false }

/-- C2 witness: at price 103 both thresholds are crossed and the emitted
signal is TAKE_PROFIT; the tick emits at most one event for the key. -/
theorem trading_C2_witness :
    emitSignal c2Info 103 = some ExitSignal.takeProfit ∧
    ((monitorTick [("BTCUSDT_scalp", c2Info)] fun _ => some 103).filter
      fun ev => decide (ev.key = "BTCUSDT_scalp")).length ≤ 1 := by
  have h := trading_C2_exit_priority [("BTCUSDT_scalp", c2Info)]
    (fun _ => some 103) "BTCUSDT_scalp" c2Info 103
  exact ⟨h.2.2.1 rfl (by norm_num [c2Info]) (by norm_num [c2Info]),
    h.1 (by simp)⟩

/-- Compounding interval policy strings. -/
inductive CompoundInterval where
  | immediate
  | daily
  | weekly
deriving Repr, DecidableEq

/-- compound_manager.CompoundManager.  Dates are modelled as day numbers
(ℤ); the non-reentrant threading.Lock is modelled by lockHeld, and an
acquisition of a lock that is already held blocks the call forever, which
the operations signal by returning none. -/
structure CompoundManager where
  enabled : Bool
  thresholdUsd : ℚ
  interval : CompoundInterval
  accumulatedProfits : ℚ
  lastCompoundDate : ℤ
  compoundCount : ℕ
  totalCompounded : ℚ
  lockHeld : Bool
deriving Repr, DecidableEq

/-- CompoundManager._should_compound: threshold first, then the interval
policy (immediate: always; daily: strictly later day; weekly: at least 7
days later). -/
def CompoundManager.shouldCompound (c : CompoundManager) (today : ℤ) :
    Bool :=
  if c.accumulatedProfits < c.thresholdUsd then false
  else
    match c.interval with
    | .immediate => true
    | .daily => decide (c.lastCompoundDate < today)
    | .weekly => decide (7 ≤ today - c.lastCompoundDate)

/-- CompoundManager._apply_compounding: acquires self.lock again; if the
caller already holds it the acquisition blocks forever (none).  Otherwise
the accumulated amount is returned and the accumulator reset. -/
def CompoundManager.applyCompounding (c : CompoundManager) (today : ℤ) :
    Option (ℚ × CompoundManager) :=
  if c.lockHeld then none
  else
    some (c.accumulatedProfits,
      { c with
        accumulatedProfits := 0
        lastCompoundDate := today
        compoundCount := c.compoundCount + 1
        totalCompounded := c.totalCompounded + c.accumulatedProfits
        lockHeld := false })

/-- CompoundManager.add_profit: ignore when disabled or the profit is not
a positive validated amount; otherwise acquire self.lock, accumulate, and
when _should_compound holds call _apply_compounding WHILE STILL HOLDING
the non-reentrant lock. -/
def CompoundManager.addProfit (c : CompoundManager) (profitUsd : ℚ)
    (today : ℤ) : Option (ℚ × CompoundManager) :=
  if !c.enabled then some (0, c)
  else if !validatePrice profitUsd ∨ profitUsd ≤ 0 then some (0, c)
  else if c.lockHeld then none
  else
    let c1 : CompoundManager :=
      { c with
        lockHeld := true
        accumulatedProfits := c.accumulatedProfits + profitUsd }
    if c1.shouldCompound today then c1.applyCompounding today
    else some (0, { c1 with lockHeld := false })

/-- Compounding manager with threshold $50 and interval daily, last
compounded on day 0, for the C7 scenario. -/
def c7Start : CompoundManager :=
  { enabled := true, thresholdUsd := 50, interval := .daily,
    accumulatedProfits := 0, lastCompoundDate := 0, compoundCount := 0,
    totalCompounded := 0, lockHeld := false }

/-- State after accumulating $30. -/
def c7After30 : CompoundManager := { c7Start with accumulatedProfits := 30 }

/-- State after accumulating $30 then $25. -/
def c7After55 : CompoundManager := { c7Start with accumulatedProfits := 55 }

/-- C7: with threshold $50 and interval daily, $30 then $25 on day 0
accumulate without compounding, exactly as claimed; but the next day's
qualifying $1 profit makes _should_compound true and add_profit then calls
_apply_compounding, which re-acquires the already-held non-reentrant
threading.Lock: the call blocks forever (none) instead of returning the
accumulated $56.  Run with the lock free, _apply_compounding itself would
return the full amount and reset the accumulator to 0 — the claimed
behaviour, unreachable through add_profit. -/
theorem trading_C7_compound_deadlock :
    c7Start.addProfit 30 0 = some (0, c7After30) ∧
    c7After30.addProfit 25 0 = some (0, c7After55) ∧
    c7After55.addProfit 1 1 = none ∧
    ({ c7After55 with
        accumulatedProfits := 56
        lockHeld := true } : CompoundManager).shouldCompound 1 = true ∧
    ({ c7After55 with accumulatedProfits := 56 } :
        CompoundManager).applyCompounding 1 =
      some (56, { c7After55 with
        accumulatedProfits := 0
        lastCompoundDate := 1
        compoundCount := 1
        totalCompounded := 56 }) := by
  refine ⟨?_, ?_, ?_, ?_, ?_⟩ <;>
    norm_num [c7Start, c7After30, c7After55, CompoundManager.addProfit,
      CompoundManager.shouldCompound, CompoundManager.applyCompounding,
      validatePrice]

end Trading
